import Mathlib

/-!
Verification of the WASM tensor-backend core (`packages/backend-wasm/wasm/src`).

The development shallowly embeds the Rust sources into Lean:

* `arena.rs` — `TempArena` (bump allocator with checkpoint stack) and
  `PersistentStorage` (id-keyed tensor store).
* `pattern.rs` — `PatternCache` with hit counters, timestamps, and LRU
  eviction.  Rust `HashMap`s are modelled as association lists keyed by
  `Nat`; iteration order of the model is the list order (the source's
  `HashMap` iteration order is unspecified, which the relevant theorems
  do not depend on).
* `utils.rs` / `operations/*.rs` — the element-wise kernels.  IEEE-754
  floating-point values are modelled symbolically by the type `Fp`:
  NaN, signed infinities, the two signed zeros, and finite values carried
  exactly as rationals.  Rounding and overflow of finite arithmetic are
  not modelled; every claim settled over `Fp` concerns only the
  special-value and branching behaviour of the kernels, which is
  independent of rounding.  Machine integers are modelled as `Int` with
  explicit wrapping / clamping where the source wraps or clamps.
-/

/-! ## Symbolic IEEE-754 value domain -/

/-- A symbolic IEEE-754 floating-point datum: NaN, a signed infinity, the
negative zero, or a finite value held exactly as a rational (`fin 0` is the
positive zero).  Rounding of finite results is not modelled. -/
inductive Fp where
  | nan : Fp
  | inf (negative : Bool) : Fp
  | negZero : Fp
  | fin (q : ℚ) : Fp
deriving DecidableEq, Repr

/-- The rational magnitude of a zero or finite datum (`0` for NaN/infinity,
used only on finite data). -/
def Fp.toRat : Fp → ℚ
  | .negZero => 0
  | .fin q => q
  | _ => 0

/-- The IEEE sign bit (`true` = negative).  NaN's sign is unobservable in
the modelled kernels; it is taken positive. -/
def Fp.sign : Fp → Bool
  | .nan => false
  | .inf negative => negative
  | .negZero => true
  | .fin q => decide (q < 0)

/-- `x.isNaN`. -/
def Fp.isNaN : Fp → Bool
  | .nan => true
  | _ => false

/-- The IEEE comparison `x == 0.0`; both zeros compare equal to `0.0`. -/
def Fp.eqZero : Fp → Bool
  | .negZero => true
  | .fin q => decide (q = 0)
  | _ => false

/-- A zero of the given sign. -/
def Fp.mkZero (negative : Bool) : Fp :=
  if negative then .negZero else .fin 0

/-- The IEEE comparison `x > y` (false whenever an operand is NaN). -/
def Fp.gt : Fp → Fp → Bool
  | .nan, _ => false
  | _, .nan => false
  | .inf s, .inf t => !s && t
  | .inf s, _ => !s
  | _, .inf t => t
  | x, y => decide (y.toRat < x.toRat)

/-- The IEEE comparison `x < y`. -/
def Fp.lt (x y : Fp) : Bool := Fp.gt y x

/-- The IEEE comparison `x > 0.0`. -/
def Fp.gtZero (x : Fp) : Bool := x.gt (.fin 0)

/-- The IEEE comparison `x < 0.0`. -/
def Fp.ltZero (x : Fp) : Bool := x.lt (.fin 0)

/-- IEEE negation `-x` (a pure sign-bit flip). -/
def Fp.neg : Fp → Fp
  | .nan => .nan
  | .inf negative => .inf !negative
  | .negZero => .fin 0
  | .fin q => if q = 0 then .negZero else .fin (-q)

/-- IEEE `x.abs()` (clears the sign bit). -/
def Fp.abs : Fp → Fp
  | .nan => .nan
  | .inf _ => .inf false
  | .negZero => .fin 0
  | .fin q => .fin |q|

/-- IEEE addition over the symbolic domain; finite sums are exact (no
rounding).  The zero-sign rules follow round-to-nearest: a zero result of
adding finite operands is `-0` only when both operands are negative. -/
def Fp.add : Fp → Fp → Fp
  | .nan, _ => .nan
  | _, .nan => .nan
  | .inf s, .inf t => if s = t then .inf s else .nan
  | .inf s, _ => .inf s
  | _, .inf t => .inf t
  | x, y =>
    let r := x.toRat + y.toRat
    if r = 0 then Fp.mkZero (x.sign && y.sign) else .fin r

/-- IEEE subtraction; `x - y` is exactly `x + (-y)`. -/
def Fp.sub (x y : Fp) : Fp := x.add y.neg

/-- IEEE multiplication over the symbolic domain; finite products are
exact.  `inf * 0 = NaN`; the sign of a zero or infinite result is the xor
of the operand signs. -/
def Fp.mul : Fp → Fp → Fp
  | .nan, _ => .nan
  | _, .nan => .nan
  | .inf s, .inf t => .inf (xor s t)
  | .inf s, y => if y.eqZero then .nan else .inf (xor s y.sign)
  | x, .inf t => if x.eqZero then .nan else .inf (xor x.sign t)
  | x, y =>
    let r := x.toRat * y.toRat
    if r = 0 then Fp.mkZero (xor x.sign y.sign) else .fin r

/-- IEEE division over the symbolic domain; finite quotients are exact.
`inf / inf = NaN`, `0 / 0 = NaN`, `x / 0 = ±inf` with the IEEE sign rule
(xor of the operand signs), `x / inf` is a signed zero. -/
def Fp.div : Fp → Fp → Fp
  | .nan, _ => .nan
  | _, .nan => .nan
  | .inf _, .inf _ => .nan
  | .inf s, y => .inf (xor s y.sign)
  | x, .inf t => Fp.mkZero (xor x.sign t)
  | x, y =>
    if y.eqZero then
      if x.eqZero then .nan else .inf (xor x.sign y.sign)
    else
      let r := x.toRat / y.toRat
      if r = 0 then Fp.mkZero (xor x.sign y.sign) else .fin r

/-! ## Core enums (`types.rs`) -/

/-- `WasmDType` from `types.rs`. -/
inductive WasmDType where
  | Int8 | Uint8 | Int16 | Uint16 | Int32 | Uint32
  | Float32 | Float64 | BigInt64 | BigUint64
deriving DecidableEq, Repr

/-- `WasmOperation` from `types.rs`. -/
inductive WasmOperation where
  | Create
  | Neg | Abs | Sin | Cos | Exp | Log | Sqrt | Square
  | Add | Sub | Mul | Div
  | Reshape | View | Slice | Flatten | Permute | Transpose
  | Squeeze | Unsqueeze | Expand | Tile
  | Matmul
  | Softmax | LogSoftmax
  | Sum | Mean | Max | Min | Prod
  | Rearrange | Reduce
deriving DecidableEq, Repr

/-- `WasmError` from `types.rs`. -/
inductive WasmError where
  | InvalidOperation | InvalidDType | InvalidShape | OutOfMemory
  | InvalidInput | NotImplemented | MemoryAllocationFailed
deriving DecidableEq, Repr

/-! ## Arena (`arena.rs`) -/

/-- `MAX_WASM_MEMORY`: 3 GiB. -/
def MAX_WASM_MEMORY : Nat := 3 * 1024 * 1024 * 1024

/-- `SIMD_ALIGNMENT`. -/
def SIMD_ALIGNMENT : Nat := 16

/-- `INITIAL_ARENA_SIZE`: 64 MiB. -/
def INITIAL_ARENA_SIZE : Nat := 64 * 1024 * 1024

/-- `MAX_ALLOCATION_SIZE`: 512 MiB. -/
def MAX_ALLOCATION_SIZE : Nat := 512 * 1024 * 1024

/-- `align_up(value, boundary)`.  The source computes
`(value + boundary - 1) & !(boundary - 1)` for a power-of-two boundary,
which equals rounding `value` up to the next multiple of `boundary`. -/
def align_up (value boundary : Nat) : Nat :=
  (value + boundary - 1) - (value + boundary - 1) % boundary

/-- `ArenaOffset`: offset and (unrounded) size of one arena allocation. -/
structure ArenaOffset where
  offset : Nat
  size : Nat
deriving DecidableEq, Repr

/-- `TempArena` state.  The byte contents of the backing `Vec<u8>` are not
modelled, only the allocator bookkeeping. -/
structure TempArena where
  current : Nat
  limit : Nat
  checkpoints : List Nat
  total_allocated : Nat
deriving DecidableEq, Repr

/-- `TempArena::new()`. -/
def TempArena.new : TempArena :=
  { current := 0, limit := INITIAL_ARENA_SIZE, checkpoints := [], total_allocated := 0 }

/-- `TempArena::grow_arena`: doubles the limit (or fits the needed size)
up to the WASM ceiling. -/
def TempArena.grow_arena (a : TempArena) (needed_size : Nat) : Except String TempArena :=
  let new_size := max (a.limit * 2) (a.limit + needed_size)
  if new_size > MAX_WASM_MEMORY then
    .error "Arena would exceed WASM memory limit"
  else
    .ok { a with limit := new_size }

/-- `TempArena::alloc`: bump allocation, 16-aligned position and size. -/
def TempArena.alloc (a : TempArena) (size : Nat) : Except String (TempArena × ArenaOffset) :=
  if size = 0 then .ok (a, ⟨0, 0⟩)
  else if size > MAX_ALLOCATION_SIZE then .error "Allocation too large"
  else
    let aligned_current := align_up a.current SIMD_ALIGNMENT
    let aligned_size := align_up size SIMD_ALIGNMENT
    let bump : TempArena → TempArena × ArenaOffset := fun arena =>
      ({ arena with
          current := aligned_current + aligned_size
          total_allocated := arena.total_allocated + aligned_size },
       ⟨aligned_current, size⟩)
    if aligned_current + aligned_size > a.limit then
      match a.grow_arena aligned_size with
      | .error e => .error e
      | .ok grown => .ok (bump grown)
    else
      .ok (bump a)

/-- `TempArena::alloc_aligned`: like `alloc` but with
`max(alignment, SIMD_ALIGNMENT)` for both the position and the size. -/
def TempArena.alloc_aligned (a : TempArena) (size alignment : Nat) :
    Except String (TempArena × ArenaOffset) :=
  if size = 0 then .ok (a, ⟨0, 0⟩)
  else if size > MAX_ALLOCATION_SIZE then .error "Allocation too large"
  else
    let required_alignment := max alignment SIMD_ALIGNMENT
    let aligned_current := align_up a.current required_alignment
    let aligned_size := align_up size required_alignment
    let bump : TempArena → TempArena × ArenaOffset := fun arena =>
      ({ arena with
          current := aligned_current + aligned_size
          total_allocated := arena.total_allocated + aligned_size },
       ⟨aligned_current, size⟩)
    if aligned_current + aligned_size > a.limit then
      match a.grow_arena aligned_size with
      | .error e => .error e
      | .ok grown => .ok (bump grown)
    else
      .ok (bump a)

/-- `TempArena::checkpoint`: pushes `current`, returning the new entry's
index. -/
def TempArena.checkpoint (a : TempArena) : Nat × TempArena :=
  (a.checkpoints.length, { a with checkpoints := a.checkpoints ++ [a.current] })

/-- `TempArena::restore`: rewinds `current` to the recorded position and
truncates the checkpoint stack to `id + 1` entries.  The source returns
`Err` before mutating anything, so the error cases carry no state. -/
def TempArena.restore (a : TempArena) (checkpoint : Nat) : Except String TempArena :=
  if checkpoint ≥ a.checkpoints.length then .error "Invalid checkpoint ID"
  else
    let restore_point := a.checkpoints.getD checkpoint 0
    if restore_point > a.current then .error "Cannot restore to future checkpoint"
    else
      .ok { a with
              current := restore_point
              checkpoints := a.checkpoints.take (checkpoint + 1) }

/-- `TempArena::reset`. -/
def TempArena.reset (a : TempArena) : TempArena :=
  { a with current := 0, checkpoints := [], total_allocated := 0 }

/-- One allocation request: `alloc(size)` or `alloc_aligned(size, align)`. -/
inductive AllocCall where
  | alloc (size : Nat)
  | alloc_aligned (size alignment : Nat)
deriving DecidableEq, Repr

/-- Dispatch one allocation call. -/
def TempArena.runAlloc (a : TempArena) : AllocCall → Except String (TempArena × ArenaOffset)
  | .alloc size => a.alloc size
  | .alloc_aligned size alignment => a.alloc_aligned size alignment

/-- Run a sequence of allocation calls, requiring every call to succeed. -/
def TempArena.runAllocs (a : TempArena) : List AllocCall → Except String TempArena
  | [] => .ok a
  | c :: rest =>
    match a.runAlloc c with
    | .error e => .error e
    | .ok (a', _) => a'.runAllocs rest

/-- Run a sequence of `alloc(size)` calls, collecting the returned offsets;
every call must succeed. -/
def TempArena.runAllocList (a : TempArena) :
    List Nat → Except String (TempArena × List ArenaOffset)
  | [] => .ok (a, [])
  | size :: rest =>
    match a.alloc size with
    | .error e => .error e
    | .ok (a', off) =>
      match a'.runAllocList rest with
      | .error e => .error e
      | .ok (a'', offs) => .ok (a'', off :: offs)

/-! ## Persistent storage (`arena.rs`) -/

/-- `PersistentTensor`: a byte buffer with its declared size.  The backing
capacity rounding to 16 bytes is not observable through the modelled
operations and is omitted. -/
structure PersistentTensor where
  data : List Nat
  size : Nat
deriving DecidableEq, Repr

/-- Association-list lookup keyed by `Nat` (models `HashMap::get`). -/
def mapLookup {β : Type} (m : List (Nat × β)) (k : Nat) : Option β :=
  match m with
  | [] => none
  | (k', v) :: rest => if k' = k then some v else mapLookup rest k

/-- Association-list insert-or-replace keyed by `Nat`
(models `HashMap::insert`). -/
def mapInsert {β : Type} (m : List (Nat × β)) (k : Nat) (v : β) : List (Nat × β) :=
  match m with
  | [] => [(k, v)]
  | (k', v') :: rest => if k' = k then (k, v) :: rest else (k', v') :: mapInsert rest k v

/-- Association-list removal keyed by `Nat` (models `HashMap::remove`). -/
def mapErase {β : Type} (m : List (Nat × β)) (k : Nat) : List (Nat × β) :=
  match m with
  | [] => []
  | (k', v') :: rest => if k' = k then rest else (k', v') :: mapErase rest k

/-- `PersistentStorage` state.  In the source, `next_id` is a plain
per-instance `u64` field initialised to 1; there is no process-global
counter behind it. -/
structure PersistentStorage where
  tensors : List (Nat × PersistentTensor)
  next_id : Nat
deriving DecidableEq, Repr

/-- `PersistentStorage::new()`. -/
def PersistentStorage.new : PersistentStorage :=
  { tensors := [], next_id := 1 }

/-- `PersistentStorage::store`: hands out `next_id` and increments it. -/
def PersistentStorage.store (s : PersistentStorage) (tensor : PersistentTensor) :
    Nat × PersistentStorage :=
  (s.next_id,
   { tensors := mapInsert s.tensors s.next_id tensor, next_id := s.next_id + 1 })

/-- `PersistentStorage::get`. -/
def PersistentStorage.get (s : PersistentStorage) (id : Nat) : Option PersistentTensor :=
  mapLookup s.tensors id

/-- `PersistentStorage::remove`. -/
def PersistentStorage.remove (s : PersistentStorage) (id : Nat) :
    Bool × PersistentStorage :=
  ((mapLookup s.tensors id).isSome, { s with tensors := mapErase s.tensors id })

/-- `PersistentStorage::gc`: retains entries whose `Arc::strong_count`
exceeds 1.  Which entries still have outside `Arc` clones is runtime
state outside the store; the model takes it as the predicate
`externally_held`. -/
def PersistentStorage.gc (s : PersistentStorage) (externally_held : Nat → Bool) :
    Nat × PersistentStorage :=
  let initial_count := s.tensors.length
  let retained := s.tensors.filter (fun e => externally_held e.1)
  (initial_count - retained.length, { s with tensors := retained })

/-- One host-visible persistent-store operation. -/
inductive StorageOp where
  | store (tensor : PersistentTensor)
  | remove (id : Nat)
  | gc (externally_held : Nat → Bool)

/-- Run a sequence of store operations, collecting every id returned by
`store` in order. -/
def PersistentStorage.runOps (s : PersistentStorage) :
    List StorageOp → PersistentStorage × List Nat
  | [] => (s, [])
  | .store tensor :: rest =>
    let (id, s') := s.store tensor
    let (s'', ids) := s'.runOps rest
    (s'', id :: ids)
  | .remove id :: rest => ((s.remove id).2.runOps rest)
  | .gc held :: rest => ((s.gc held).2.runOps rest)

/-! ## Pattern cache (`pattern.rs`) -/

/-- `OperationDesc`. -/
structure OperationDesc where
  operation : WasmOperation
  input_shapes : List (List Nat)
  input_dtypes : List WasmDType
  output_shape : List Nat
  output_dtype : WasmDType
deriving DecidableEq, Repr

/-- `AllocationRequirement`. -/
structure AllocationRequirement where
  size_bytes : Nat
  alignment : Nat
  is_output : Bool
deriving DecidableEq, Repr

/-- `OperationPattern`.  Pattern ids are produced in the source by
`DefaultHasher` over the operation sequence; the model carries the id as
given.  The `f32` speedup estimate is carried exactly as a rational. -/
structure OperationPattern where
  pattern_id : Nat
  operations : List OperationDesc
  allocations : List AllocationRequirement
  total_memory_needed : Nat
  estimated_speedup : ℚ
deriving DecidableEq, Repr

/-- `PatternSignature`. -/
structure PatternSignature where
  operation : WasmOperation
  input_shapes : List (List Nat)
  input_dtypes : List WasmDType
deriving DecidableEq, Repr

/-- `PatternSignature::from_operation_desc`. -/
def PatternSignature.from_operation_desc (desc : OperationDesc) : PatternSignature :=
  { operation := desc.operation
    input_shapes := desc.input_shapes
    input_dtypes := desc.input_dtypes }

/-- `PatternCache` state; the three `HashMap`s become association lists. -/
structure PatternCache where
  patterns : List (Nat × OperationPattern)
  hit_counts : List (Nat × Nat)
  last_used : List (Nat × Nat)
  current_time : Nat
  max_patterns : Nat
  max_memory_usage : Nat
  current_memory_usage : Nat
deriving Repr

/-- `PatternCache::new(max_patterns, max_memory_mb)`. -/
def PatternCache.new (max_patterns max_memory_mb : Nat) : PatternCache :=
  { patterns := [], hit_counts := [], last_used := [], current_time := 0
    max_patterns := max_patterns
    max_memory_usage := max_memory_mb * 1024 * 1024
    current_memory_usage := 0 }

/-- The access bump shared by `get_pattern` and `find_matching_pattern`:
ticks the clock, refreshes `last_used`, and increments the hit counter
(`*hit_counts.entry(id).or_insert(0) += 1`). -/
def PatternCache.bumpAccess (c : PatternCache) (pattern_id : Nat) : PatternCache :=
  let t := c.current_time + 1
  { c with
      current_time := t
      last_used := mapInsert c.last_used pattern_id t
      hit_counts :=
        mapInsert c.hit_counts pattern_id ((mapLookup c.hit_counts pattern_id).getD 0 + 1) }

/-- `PatternCache::get_pattern`. -/
def PatternCache.get_pattern (c : PatternCache) (pattern_id : Nat) :
    Option OperationPattern × PatternCache :=
  match mapLookup c.patterns pattern_id with
  | some pattern => (some pattern, c.bumpAccess pattern_id)
  | none => (none, c)

/-- `PatternCache::find_matching_pattern`: first stored pattern whose first
operation's signature equals the query (model iteration order: list
order; the source's `HashMap` order is unspecified). -/
def PatternCache.find_matching_pattern (c : PatternCache) (signature : PatternSignature) :
    Option Nat × PatternCache :=
  match c.patterns.find? (fun e =>
      match e.2.operations.head? with
      | some first_op => PatternSignature.from_operation_desc first_op = signature
      | none => false) with
  | some e => (some e.1, c.bumpAccess e.1)
  | none => (none, c)

/-- `PatternCache::update_pattern_stats`: exponential moving average on the
speedup estimate.  Rational division by a zero speedup yields 0 where
`f32` would give an infinity; the claims settled here do not depend on the
speedup value. -/
def PatternCache.update_pattern_stats (c : PatternCache) (pattern_id : Nat)
    (execution_time : ℚ) : PatternCache :=
  match mapLookup c.patterns pattern_id with
  | none => c
  | some pattern =>
    let current_speedup := pattern.estimated_speedup
    let base_execution_time := execution_time / current_speedup
    let new_speedup :=
      if 0 < execution_time then base_execution_time / execution_time else current_speedup
    { c with
        patterns := mapInsert c.patterns pattern_id
          { pattern with
              estimated_speedup := current_speedup * (9 / 10) + new_speedup * (1 / 10) } }

/-- Remove one pattern id from every tracking map, crediting back its
memory charge with saturating subtraction (shared tail of
`evict_lru_pattern` and `evict_patterns`). -/
def PatternCache.removeTracked (c : PatternCache) (pattern_id : Nat) : PatternCache :=
  let mem :=
    match mapLookup c.patterns pattern_id with
    | some pattern => c.current_memory_usage - pattern.total_memory_needed
    | none => c.current_memory_usage
  { c with
      patterns := mapErase c.patterns pattern_id
      hit_counts := mapErase c.hit_counts pattern_id
      last_used := mapErase c.last_used pattern_id
      current_memory_usage := mem }

/-- `min_by_key` over `last_used` (ties: first in model order). -/
def minByTime (entries : List (Nat × Nat)) : Option Nat :=
  match entries with
  | [] => none
  | e :: rest =>
    match minByTime rest with
    | none => some e.1
    | some k =>
      match mapLookup rest k with
      | some t => if e.2 ≤ t then some e.1 else some k
      | none => some e.1

/-- `PatternCache::evict_lru_pattern`. -/
def PatternCache.evict_lru_pattern (c : PatternCache) : Except String PatternCache :=
  if c.patterns.isEmpty then .error "No patterns to evict"
  else
    match minByTime c.last_used with
    | none => .error "No patterns to evict"
    | some lru_pattern_id => .ok (c.removeTracked lru_pattern_id)

/-- The eviction sweep of `evict_patterns`: walk ids in ascending
`last_used` order, removing until usage fits `target_usage`. -/
def evictSweep (c : PatternCache) (target_usage : Nat) :
    List (Nat × Nat) → PatternCache
  | [] => c
  | e :: rest =>
    if c.current_memory_usage ≤ target_usage then c
    else evictSweep (c.removeTracked e.1) target_usage rest

/-- `PatternCache::evict_patterns(needed_space)`. -/
def PatternCache.evict_patterns (c : PatternCache) (needed_space : Nat) :
    Except String PatternCache :=
  let target_usage := c.max_memory_usage - needed_space
  let patterns_by_time := c.last_used.mergeSort (fun e1 e2 => e1.2 ≤ e2.2)
  let c' := evictSweep c target_usage patterns_by_time
  if c'.current_memory_usage + needed_space > c'.max_memory_usage then
    .error "Cannot free enough space for new pattern"
  else .ok c'

/-- `PatternCache::store_pattern`.  Note that the hit counter of the
stored id is unconditionally reset to 0
(`self.hit_counts.insert(pattern_id, 0)`). -/
def PatternCache.store_pattern (c : PatternCache) (pattern : OperationPattern) :
    Except String PatternCache :=
  let pattern_id := pattern.pattern_id
  let pattern_memory := pattern.total_memory_needed
  let step1 : Except String PatternCache :=
    if c.current_memory_usage + pattern_memory > c.max_memory_usage then
      c.evict_patterns pattern_memory
    else .ok c
  match step1 with
  | .error e => .error e
  | .ok c1 =>
    let step2 : Except String PatternCache :=
      if c1.patterns.length ≥ c1.max_patterns then c1.evict_lru_pattern
      else .ok c1
    match step2 with
    | .error e => .error e
    | .ok c2 =>
      let t := c2.current_time + 1
      .ok { c2 with
              current_memory_usage := c2.current_memory_usage + pattern_memory
              current_time := t
              last_used := mapInsert c2.last_used pattern_id t
              hit_counts := mapInsert c2.hit_counts pattern_id 0
              patterns := mapInsert c2.patterns pattern_id pattern }

/-- `PatternCache::clear`. -/
def PatternCache.clear (c : PatternCache) : PatternCache :=
  { c with
      patterns := [], hit_counts := [], last_used := []
      current_memory_usage := 0, current_time := 0 }

/-- The hit counter currently associated with a pattern id (0 when
untracked, matching `or_insert(0)` and the stats summation). -/
def PatternCache.hitsOf (c : PatternCache) (pattern_id : Nat) : Nat :=
  (mapLookup c.hit_counts pattern_id).getD 0

/-- A pattern-cache operation that is not `store_pattern` or `clear`. -/
inductive CacheQueryOp where
  | get (pattern_id : Nat)
  | find (signature : PatternSignature)
  | update (pattern_id : Nat) (execution_time : ℚ)

/-- Apply one query operation, discarding the returned value. -/
def PatternCache.applyQuery (c : PatternCache) : CacheQueryOp → PatternCache
  | .get pattern_id => (c.get_pattern pattern_id).2
  | .find signature => (c.find_matching_pattern signature).2
  | .update pattern_id execution_time => c.update_pattern_stats pattern_id execution_time

/-- Apply a sequence of query operations. -/
def PatternCache.applyQueries (c : PatternCache) : List CacheQueryOp → PatternCache
  | [] => c
  | op :: rest => (c.applyQuery op).applyQueries rest

/-! ## Division helpers (`utils.rs`) and binary kernels (`operations/binary.rs`) -/

/-- `safe_div_f32`: on a zero divisor (either sign) the result is chosen by
the dividend's sign alone; otherwise IEEE division. -/
def safe_div_f32 (a b : Fp) : Fp :=
  if b.eqZero then
    if a.gtZero then .inf false
    else if a.ltZero then .inf true
    else .nan
  else a.div b

/-- `safe_div_f64` (same body as `safe_div_f32` at `f64`). -/
def safe_div_f64 (a b : Fp) : Fp :=
  if b.eqZero then
    if a.gtZero then .inf false
    else if a.ltZero then .inf true
    else .nan
  else a.div b

/-- `execute_binary_f64_fast`: element-wise f64 fast path (equal sizes, no
broadcasting); `Div` routes through `safe_div_f64`. -/
def execute_binary_f64_fast (operation : WasmOperation) (a b : List Fp) :
    Except WasmError (List Fp) :=
  match operation with
  | .Add => .ok (List.zipWith Fp.add a b)
  | .Sub => .ok (List.zipWith Fp.sub a b)
  | .Mul => .ok (List.zipWith Fp.mul a b)
  | .Div => .ok (List.zipWith safe_div_f64 a b)
  | _ => .error .InvalidOperation

/-- `i32::MIN`. -/
def i32_min : Int := -(2 ^ 31)

/-- `i32::MAX`. -/
def i32_max : Int := 2 ^ 31 - 1

/-- Wrap an integer into the `i32` range (two's complement). -/
def wrap32 (x : Int) : Int := (x + 2 ^ 31) % 2 ^ 32 - 2 ^ 31

/-- Rust `a / b` on `i32`: truncated division, trapping (`none`) on a zero
divisor or on the overflowing pair `i32::MIN / -1`. -/
def rust_div_i32 (a b : Int) : Option Int :=
  if b = 0 then none
  else if a = i32_min ∧ b = -1 then none
  else some (a.tdiv b)

/-- One `Div` element of `execute_binary_i32_fast`: clamp to the type
extremum on a zero divisor, otherwise Rust `/` (which can trap). -/
def div_elem_i32 (a_val b_val : Int) : Option Int :=
  if b_val = 0 then some (if 0 < a_val then i32_max else i32_min)
  else rust_div_i32 a_val b_val

/-- Collect an all-`some` list (`none` as soon as one element is `none`). -/
def optList {α : Type} : List (Option α) → Option (List α)
  | [] => some []
  | none :: _ => none
  | some x :: rest => (optList rest).map (x :: ·)

/-- `execute_binary_i32_fast`.  `Add`/`Sub`/`Mul` wrap; `Div` clamps on a
zero divisor and otherwise uses Rust `/`.  A result of `.ok none` models
the Rust panic raised by `/` on the overflowing pair `i32::MIN / -1`. -/
def execute_binary_i32_fast (operation : WasmOperation) (a b : List Int) :
    Except WasmError (Option (List Int)) :=
  match operation with
  | .Add => .ok (some (List.zipWith (fun x y => wrap32 (x + y)) a b))
  | .Sub => .ok (some (List.zipWith (fun x y => wrap32 (x - y)) a b))
  | .Mul => .ok (some (List.zipWith (fun x y => wrap32 (x * y)) a b))
  | .Div => .ok (optList (List.zipWith div_elem_i32 a b))
  | _ => .error .InvalidOperation

/-! ## Unary kernels (`operations/unary.rs`) -/

/-- The external math primitives the unary kernels call out to (`libm`,
`micromath`, and `fast_math.rs` table approximations).  They are leaf
dependencies outside the modelled branching; the kernels are parametrised
over them. -/
structure FloatFns where
  sqrtf : Fp → Fp
  expf : Fp → Fp
  logf : Fp → Fp
  fast_sin : Fp → Fp
  fast_cos : Fp → Fp

/-- `execute_unary_f32`: element-wise unary f32 kernel.  The `Log` arm
guards explicitly: positive inputs go to `libm::logf`, zero inputs produce
`f32::NEG_INFINITY`, and everything else (negatives, NaN) produces
`f32::NAN`. -/
def execute_unary_f32 (F : FloatFns) (operation : WasmOperation) (input : List Fp) :
    Except WasmError (List Fp) :=
  match operation with
  | .Neg => .ok (input.map Fp.neg)
  | .Abs => .ok (input.map Fp.abs)
  | .Sqrt => .ok (input.map F.sqrtf)
  | .Sin => .ok (input.map F.fast_sin)
  | .Cos => .ok (input.map F.fast_cos)
  | .Exp => .ok (input.map F.expf)
  | .Log => .ok (input.map (fun val =>
      if val.gtZero then F.logf val
      else if val.eqZero then .inf true
      else .nan))
  | .Square => .ok (List.zipWith Fp.mul input input)
  | _ => .error .InvalidOperation

/-- `execute_unary_f64`.  Its `Log` arm differs from the f32 kernel: any
input that is not strictly positive — including zero — produces
`f64::NAN`. -/
def execute_unary_f64 (F : FloatFns) (operation : WasmOperation) (input : List Fp) :
    Except WasmError (List Fp) :=
  match operation with
  | .Neg => .ok (input.map Fp.neg)
  | .Abs => .ok (input.map Fp.abs)
  | .Sqrt => .ok (input.map F.sqrtf)
  | .Sin => .ok (input.map F.fast_sin)
  | .Cos => .ok (input.map F.fast_cos)
  | .Exp => .ok (input.map F.expf)
  | .Log => .ok (input.map (fun val =>
      if val.gtZero then F.logf val else .nan))
  | .Square => .ok (input.map (fun val => val.mul val))
  | _ => .error .InvalidOperation

/-! ## Reductions (`operations/reduction.rs`) -/

/-- `execute_full_reduction_f32`: scalar reduction of the whole input.
Each arm folds exactly as the source loop does; `Mean` divides the final
sum by the element count. -/
def execute_full_reduction_f32 (operation : WasmOperation) (input : List Fp) :
    Except WasmError Fp :=
  match operation with
  | .Sum => .ok (input.foldl Fp.add (.fin 0))
  | .Mean => .ok ((input.foldl Fp.add (.fin 0)).div (.fin input.length))
  | .Max => .ok (input.foldl
      (fun max_val val => if val.gt max_val || val.isNaN then val else max_val)
      (.inf true))
  | .Min => .ok (input.foldl
      (fun min_val val => if val.lt min_val || val.isNaN then val else min_val)
      (.inf false))
  | .Prod => .ok (input.foldl Fp.mul (.fin 1))
  | _ => .error .InvalidOperation

/-- Decode a flat index into multi-dimensional indices, most significant
first (the source divides by the canonical row-major stride of each
position). -/
def flatToIndices (flat_idx : Nat) (shape : List Nat) : List Nat :=
  match shape with
  | [] => []
  | _ :: rest =>
    let stride := rest.prod
    flat_idx / stride :: flatToIndices (flat_idx % stride) rest

/-- Sum of `indices[i] * strides[i]` over the common prefix
(`compute_flat_index` in `view.rs`, and the stride walks in
`reduction.rs`). -/
def computeFlatIndex (indices strides : List Nat) : Nat :=
  (List.zipWith (· * ·) indices strides).sum

/-- The per-element accumulation of `execute_axis_reduction_f32` (the
`Sum`/`Mean` arms coincide; the `InvalidOperation` arm of the source loop
is unreachable because initialisation already rejected other
operations). -/
def axisAccum (operation : WasmOperation) (acc input_val : Fp) : Fp :=
  match operation with
  | .Sum => acc.add input_val
  | .Mean => acc.add input_val
  | .Max => if input_val.gt acc || input_val.isNaN then input_val else acc
  | .Min => if input_val.lt acc || input_val.isNaN then input_val else acc
  | .Prod => acc.mul input_val
  | _ => acc

/-- The output offset for one input position: output strides are walked
over the non-reduced axes only. -/
def axisOutputOffset (indices : List Nat) (is_reduced : List Bool)
    (output_strides : List Nat) : Nat :=
  computeFlatIndex
    ((indices.zip is_reduced).filterMap (fun p => if p.2 then none else some p.1))
    output_strides

/-- `execute_axis_reduction_f32`: reduction along the listed axes.  The
output buffer is initialised per operation, every input element is
accumulated into its output slot, and `Mean` finally divides each output
element by the product of the reduced extents. -/
def execute_axis_reduction_f32 (operation : WasmOperation) (input : List Fp)
    (input_shape input_strides : List Nat) (axes : List Nat) :
    Except WasmError (Array Fp) :=
  let ndim := input_shape.length
  if axes.any (fun axis => axis ≥ ndim) then .error .InvalidInput
  else
    let is_reduced := (List.range ndim).map (fun i => axes.contains i)
    let output_shape :=
      (input_shape.zip is_reduced).filterMap (fun p => if p.2 then none else some p.1)
    let output_strides :=
      (List.range output_shape.length).map (fun i => (output_shape.drop (i + 1)).prod)
    let init_val : Except WasmError Fp :=
      match operation with
      | .Sum => .ok (.fin 0)
      | .Mean => .ok (.fin 0)
      | .Max => .ok (.inf true)
      | .Min => .ok (.inf false)
      | .Prod => .ok (.fin 1)
      | _ => .error .InvalidOperation
    match init_val with
    | .error e => .error e
    | .ok v0 =>
      let output0 := Array.mkArray output_shape.prod v0
      let total_elements := input_shape.prod
      let accumulated := (List.range total_elements).foldl (fun output flat_idx =>
        let indices := flatToIndices flat_idx input_shape
        let input_offset := computeFlatIndex indices input_strides
        let output_offset := axisOutputOffset indices is_reduced output_strides
        let input_val := input.getD input_offset .nan
        output.setD output_offset (axisAccum operation (output.getD output_offset .nan) input_val))
        output0
      if operation = .Mean then
        let reduced_size : Nat := (axes.map (fun axis => input_shape.getD axis 0)).prod
        .ok (accumulated.map (fun val => val.div (.fin reduced_size)))
      else .ok accumulated

/-- Clamp an integer into `[i32::MIN, i32::MAX]` (`i64::clamp` before the
narrowing cast). -/
def clamp_i32 (x : Int) : Int := max i32_min (min i32_max x)

/-- The `Prod` loop of `execute_reduction_i32`: saturating multiply with
early exit once the running product leaves the `i32` magnitude range. -/
def i32ProdLoop (prod : Int) : List Int → Int
  | [] => prod
  | val :: rest =>
    let next := prod * val
    if i32_max < |next| then next else i32ProdLoop next rest

/-- `i64::MIN`. -/
def i64_min : Int := -(2 ^ 63)

/-- Rust `a / b` on `i64`: truncated division, trapping (`none`) on a zero
divisor or on the overflowing pair `i64::MIN / -1` — the Mean arm's
`sum / (input.len() as i64)` divides by zero (and panics) on an empty
input. -/
def rust_div_i64 (a b : Int) : Option Int :=
  if b = 0 then none
  else if a = i64_min ∧ b = -1 then none
  else some (a.tdiv b)

/-- `execute_reduction_i32`: the i32 reduction kernel.  It receives shape,
strides and axes but ignores them, always reducing the whole input into
`output[0]`; `Sum`/`Mean` accumulate in `i64` (modelled as unbounded
`Int`, which i32 element sums cannot overflow) and clamp the result.  A
result of `.ok none` models the Rust panic raised by the Mean arm's `i64`
division on an empty input. -/
def execute_reduction_i32 (operation : WasmOperation) (input : List Int)
    (_input_shape _input_strides : List Nat) (_axes : Option (List Nat)) :
    Except WasmError (Option Int) :=
  match operation with
  | .Sum => .ok (some (clamp_i32 (input.foldl (· + ·) 0)))
  | .Mean =>
    .ok ((rust_div_i64 (input.foldl (· + ·) 0) input.length).map clamp_i32)
  | .Max =>
    .ok (some (input.foldl (fun max_val val => if max_val < val then val else max_val) i32_min))
  | .Min =>
    .ok (some (input.foldl (fun min_val val => if val < min_val then val else min_val) i32_max))
  | .Prod => .ok (some (clamp_i32 (i32ProdLoop 1 input)))
  | _ => .error .InvalidOperation

/-! ## Slice with explicit offsets (`operations/view.rs`) -/

/-- The index mapping of `slice_with_offsets_*`: for a 1-D output add
`row_start`; for a 2-D output add `row_start` and `col_start`; for higher
ranks offset only the first two positions. -/
def sliceInputIndices (output_indices : List Nat) (output_rank row_start col_start : Nat) :
    List Nat :=
  match output_rank with
  | 1 => [output_indices.getD 0 0 + row_start]
  | 2 => [output_indices.getD 0 0 + row_start, output_indices.getD 1 0 + col_start]
  | _ =>
    match output_indices with
    | [] => []
    | [i0] => [i0 + row_start]
    | i0 :: i1 :: rest => (i0 + row_start) :: (i1 + col_start) :: rest

/-- Map a fallible function over a list, stopping at the first error
(the shape of the per-element loops that `return Err(..)` from inside). -/
def exceptMap {α β ε : Type} (f : α → Except ε β) : List α → Except ε (List β)
  | [] => .ok []
  | x :: rest =>
    match f x with
    | .error e => .error e
    | .ok y =>
      match exceptMap f rest with
      | .error e => .error e
      | .ok ys => .ok (y :: ys)

/-- `slice_with_offsets_f32` (the f64/i32 bodies are identical): every
output position is decoded, offset, flattened with the *input strides*,
and bounds-checked only against the flat input length.  On an
out-of-range flat index the source returns `InvalidInput` (output written
so far is discarded here; the source leaves it unspecified behind the
error). -/
def slice_with_offsets_f32 (input : List Fp)
    (_input_shape input_strides output_shape : List Nat)
    (row_start col_start : Nat) : Except WasmError (List Fp) :=
  let total_output_elements := output_shape.prod
  exceptMap (fun output_flat_index =>
    let output_indices := flatToIndices output_flat_index output_shape
    let input_indices :=
      sliceInputIndices output_indices output_shape.length row_start col_start
    let input_flat_index := computeFlatIndex input_indices input_strides
    if input_flat_index < input.length ∧ output_flat_index < total_output_elements then
      .ok (input.getD input_flat_index .nan)
    else .error WasmError.InvalidInput)
    (List.range total_output_elements)

/-! ## Arena lemmas -/

theorem align_up_le_self (value boundary : Nat) (h : 0 < boundary) :
    value ≤ align_up value boundary := by
  unfold align_up
  have hm : (value + boundary - 1) % boundary < boundary := Nat.mod_lt _ h
  omega

theorem align_up_dvd (value boundary : Nat) :
    boundary ∣ align_up value boundary := by
  unfold align_up
  have hd := Nat.div_add_mod (value + boundary - 1) boundary
  exact ⟨(value + boundary - 1) / boundary, by omega⟩

theorem TempArena.grow_arena_fields {a b : TempArena} {n : Nat}
    (h : a.grow_arena n = .ok b) :
    b.current = a.current ∧ b.checkpoints = a.checkpoints ∧
      b.total_allocated = a.total_allocated := by
  unfold TempArena.grow_arena at h
  dsimp only at h
  split at h
  · exact absurd h (by simp)
  · cases h
    exact ⟨rfl, rfl, rfl⟩

theorem TempArena.alloc_fields {a a' : TempArena} {size : Nat} {off : ArenaOffset}
    (h : a.alloc size = .ok (a', off)) :
    a'.checkpoints = a.checkpoints ∧ a.current ≤ a'.current := by
  unfold TempArena.alloc at h
  dsimp only at h
  split at h
  · cases h; exact ⟨rfl, Nat.le_refl _⟩
  · split at h
    · exact absurd h (by simp)
    · have hcur : a.current ≤ align_up a.current SIMD_ALIGNMENT + align_up size SIMD_ALIGNMENT :=
        Nat.le_trans (align_up_le_self _ _ (by decide)) (Nat.le_add_right _ _)
      split at h
      · cases hg : a.grow_arena (align_up size SIMD_ALIGNMENT) with
        | error e => rw [hg] at h; exact absurd h (by simp)
        | ok grown =>
          rw [hg] at h
          cases h
          have hf := TempArena.grow_arena_fields hg
          exact ⟨hf.2.1, hcur⟩
      · cases h
        exact ⟨rfl, hcur⟩

theorem TempArena.alloc_aligned_fields {a a' : TempArena} {size alignment : Nat}
    {off : ArenaOffset} (h : a.alloc_aligned size alignment = .ok (a', off)) :
    a'.checkpoints = a.checkpoints ∧ a.current ≤ a'.current := by
  unfold TempArena.alloc_aligned at h
  dsimp only at h
  split at h
  · cases h; exact ⟨rfl, Nat.le_refl _⟩
  · split at h
    · exact absurd h (by simp)
    · have hpos : 0 < max alignment SIMD_ALIGNMENT :=
        lt_of_lt_of_le (by decide : (0:Nat) < SIMD_ALIGNMENT) (Nat.le_max_right _ _)
      have hcur : a.current ≤
          align_up a.current (max alignment SIMD_ALIGNMENT) +
            align_up size (max alignment SIMD_ALIGNMENT) :=
        Nat.le_trans (align_up_le_self _ _ hpos) (Nat.le_add_right _ _)
      split at h
      · cases hg : a.grow_arena (align_up size (max alignment SIMD_ALIGNMENT)) with
        | error e => rw [hg] at h; exact absurd h (by simp)
        | ok grown =>
          rw [hg] at h
          cases h
          have hf := TempArena.grow_arena_fields hg
          exact ⟨hf.2.1, hcur⟩
      · cases h
        exact ⟨rfl, hcur⟩

theorem TempArena.runAlloc_fields {a a' : TempArena} {c : AllocCall} {off : ArenaOffset}
    (h : a.runAlloc c = .ok (a', off)) :
    a'.checkpoints = a.checkpoints ∧ a.current ≤ a'.current := by
  cases c with
  | alloc size => exact TempArena.alloc_fields h
  | alloc_aligned size alignment => exact TempArena.alloc_aligned_fields h

theorem TempArena.runAllocs_fields {calls : List AllocCall} :
    ∀ {a a' : TempArena}, a.runAllocs calls = .ok a' →
      a'.checkpoints = a.checkpoints ∧ a.current ≤ a'.current := by
  induction calls with
  | nil =>
    intro a a' h
    cases h
    exact ⟨rfl, Nat.le_refl _⟩
  | cons c rest ih =>
    intro a a' h
    unfold TempArena.runAllocs at h
    cases hc : a.runAlloc c with
    | error e => rw [hc] at h; exact absurd h (by simp)
    | ok p =>
      rw [hc] at h
      have h1 := TempArena.runAlloc_fields
        (show a.runAlloc c = .ok (p.1, p.2) by rw [hc])
      have h2 := ih h
      exact ⟨h2.1.trans h1.1, h1.2.trans h2.2⟩

theorem TempArena.alloc_pos_spec {a a' : TempArena} {size : Nat} {off : ArenaOffset}
    (hs : 0 < size) (h : a.alloc size = .ok (a', off)) :
    off.offset % 16 = 0 ∧ off.size = size ∧ a.current ≤ off.offset ∧
      off.offset + off.size ≤ a'.current := by
  have hmod : align_up a.current SIMD_ALIGNMENT % 16 = 0 :=
    Nat.mod_eq_zero_of_dvd (align_up_dvd a.current SIMD_ALIGNMENT)
  have hle : a.current ≤ align_up a.current SIMD_ALIGNMENT :=
    align_up_le_self _ _ (by decide)
  have hsz : size ≤ align_up size SIMD_ALIGNMENT := align_up_le_self _ _ (by decide)
  unfold TempArena.alloc at h
  dsimp only at h
  split at h
  · omega
  · split at h
    · exact absurd h (by simp)
    · split at h
      · cases hg : a.grow_arena (align_up size SIMD_ALIGNMENT) with
        | error e => rw [hg] at h; exact absurd h (by simp)
        | ok grown =>
          rw [hg] at h
          cases h
          exact ⟨hmod, rfl, hle, by dsimp only; omega⟩
      · cases h
        exact ⟨hmod, rfl, hle, by dsimp only; omega⟩

theorem TempArena.runAllocList_spec {sizes : List Nat} :
    ∀ {a a' : TempArena} {offs : List ArenaOffset},
      (∀ s ∈ sizes, 0 < s) → a.runAllocList sizes = .ok (a', offs) →
      a.current ≤ a'.current ∧
      (∀ o ∈ offs, o.offset % 16 = 0 ∧ a.current ≤ o.offset ∧
        o.offset + o.size ≤ a'.current) ∧
      List.Pairwise (fun o1 o2 => o1.offset + o1.size ≤ o2.offset) offs := by
  induction sizes with
  | nil =>
    intro a a' offs _ h
    cases h
    exact ⟨Nat.le_refl _, by simp, by simp⟩
  | cons size rest ih =>
    intro a a' offs hpos h
    unfold TempArena.runAllocList at h
    cases ha : a.alloc size with
    | error e => rw [ha] at h; exact absurd h (by simp)
    | ok p =>
      obtain ⟨a1, off⟩ := p
      rw [ha] at h
      dsimp only at h
      cases hr : a1.runAllocList rest with
      | error e => rw [hr] at h; exact absurd h (by simp)
      | ok q =>
        obtain ⟨a2, offs2⟩ := q
        rw [hr] at h
        cases h
        have hhead := TempArena.alloc_pos_spec (hpos size (by simp)) ha
        have htail := ih (fun s hs => hpos s (by simp [hs])) hr
        have hmid : a.current ≤ a1.current := by
          have h1 := hhead.2.2.1
          have h2 := hhead.2.2.2
          omega
        refine ⟨hmid.trans htail.1, ?_, ?_⟩
        · intro o ho
          rcases List.mem_cons.mp ho with rfl | ho'
          · exact ⟨hhead.1, hhead.2.2.1, hhead.2.2.2.trans htail.1⟩
          · have hmem := htail.2.1 o ho'
            exact ⟨hmem.1, hmid.trans hmem.2.1, hmem.2.2⟩
        · refine List.pairwise_cons.mpr ⟨?_, htail.2.2⟩
          intro o ho
          exact hhead.2.2.2.trans (htail.2.1 o ho).2.1

/-- C4: for every sequence of successful `alloc` calls with positive sizes
on one arena (no intervening restore or reset), every returned offset is a
multiple of 16 and the allocated byte ranges
`[offset, offset + size)` are pairwise disjoint. -/
theorem alloc_offsets_aligned_disjoint (sizes : List Nat) (a a' : TempArena)
    (offs : List ArenaOffset)
    (hpos : ∀ s ∈ sizes, 0 < s)
    (h : a.runAllocList sizes = .ok (a', offs)) :
    (∀ o ∈ offs, 16 ∣ o.offset) ∧
      List.Pairwise
        (fun o1 o2 => o1.offset + o1.size ≤ o2.offset ∨ o2.offset + o2.size ≤ o1.offset)
        offs := by
  have hspec := TempArena.runAllocList_spec hpos h
  constructor
  · intro o ho
    exact Nat.dvd_of_mod_eq_zero (hspec.2.1 o ho).1
  · exact hspec.2.2.imp (fun hle => Or.inl hle)

/-- Witness for C4: three positive allocations from a fresh arena return
`(0, 5)`, `(16, 17)`, `(48, 32)`, which are 16-aligned and disjoint. -/
theorem alloc_offsets_aligned_disjoint_witness :
    (∀ o ∈ [ArenaOffset.mk 0 5, ArenaOffset.mk 16 17, ArenaOffset.mk 48 32], 16 ∣ o.offset) ∧
      List.Pairwise
        (fun o1 o2 => o1.offset + o1.size ≤ o2.offset ∨ o2.offset + o2.size ≤ o1.offset)
        [ArenaOffset.mk 0 5, ArenaOffset.mk 16 17, ArenaOffset.mk 48 32] :=
  alloc_offsets_aligned_disjoint [5, 17, 32] TempArena.new
    ⟨80, INITIAL_ARENA_SIZE, [], 80⟩
    [ArenaOffset.mk 0 5, ArenaOffset.mk 16 17, ArenaOffset.mk 48 32]
    (by decide) (by rfl)

/-- C3: after `checkpoint()` returns `id` and any sequence of successful
`alloc` / `alloc_aligned` calls, `restore(id)` succeeds, sets `current`
back to the value it had immediately before the checkpoint, and truncates
the checkpoint stack to length `id + 1`; `restore` with an id not below
the stack length, or whose recorded position exceeds `current`, returns an
error (the source returns before mutating, so `current` is unchanged). -/
theorem checkpoint_restore_spec (a : TempArena) (calls : List AllocCall) (a2 : TempArena)
    (h : (a.checkpoint).2.runAllocs calls = .ok a2) :
    (a2.restore (a.checkpoint).1 =
        .ok { a2 with current := a.current, checkpoints := a.checkpoints ++ [a.current] } ∧
      (a.checkpoints ++ [a.current]).length = (a.checkpoint).1 + 1) ∧
    (∀ (b : TempArena) (j : Nat), b.checkpoints.length ≤ j →
      ∃ e, b.restore j = .error e) ∧
    (∀ (b : TempArena) (j : Nat), j < b.checkpoints.length →
      b.current < b.checkpoints.getD j 0 → ∃ e, b.restore j = .error e) := by
  have hfields := TempArena.runAllocs_fields h
  have hcps : a2.checkpoints = a.checkpoints ++ [a.current] := hfields.1
  have hcur : a.current ≤ a2.current := hfields.2
  refine ⟨⟨?_, by simp [TempArena.checkpoint]⟩, ?_, ?_⟩
  · unfold TempArena.restore
    have hlen : a2.checkpoints.length = a.checkpoints.length + 1 := by simp [hcps]
    rw [if_neg (by simp [TempArena.checkpoint, hlen])]
    have hgetD : a2.checkpoints.getD (a.checkpoint).1 0 = a.current := by
      simp [hcps, TempArena.checkpoint, List.getD_eq_getElem?_getD]
    rw [hgetD, if_neg (by omega)]
    have htake : a2.checkpoints.take ((a.checkpoint).1 + 1) = a.checkpoints ++ [a.current] := by
      rw [hcps]
      exact List.take_of_length_le (by simp [TempArena.checkpoint])
    rw [htake]
  · intro b j hj
    exact ⟨"Invalid checkpoint ID", by unfold TempArena.restore; rw [if_pos hj]⟩
  · intro b j hj hpt
    refine ⟨"Cannot restore to future checkpoint", ?_⟩
    unfold TempArena.restore
    rw [if_neg (by omega)]
    exact if_pos hpt

/-- Witness for C3: a fresh arena, one 400-byte allocation, `checkpoint()`
returning id 0, then 800- and 100-byte allocations; `restore(0)` rewinds
`current` to 400 and keeps the single checkpoint entry. -/
theorem checkpoint_restore_spec_witness :
    TempArena.restore ⟨1344, INITIAL_ARENA_SIZE, [400], 1328⟩ 0 =
      .ok ⟨400, INITIAL_ARENA_SIZE, [400], 1328⟩ := by
  have h := checkpoint_restore_spec ⟨400, INITIAL_ARENA_SIZE, [], 400⟩
    [.alloc 800, .alloc_aligned 100 32] ⟨1344, INITIAL_ARENA_SIZE, [400], 1328⟩ (by rfl)
  exact h.1.1

/-- C10: after a successful `restore(id)` the checkpoint id remains on the
stack (truncation keeps entries `0..=id`), so an immediately repeated
`restore(id)` also succeeds and leaves the state unchanged: restore is
idempotent at the public interface. -/
theorem restore_idempotent (a a1 : TempArena) (id : Nat)
    (h : a.restore id = .ok a1) : a1.restore id = .ok a1 := by
  unfold TempArena.restore at h
  split at h
  · exact absurd h (by simp)
  · rename_i hid
    dsimp only at h
    split at h
    · exact absurd h (by simp)
    · rename_i hpt
      cases h
      have hlenlt : id < a.checkpoints.length := by omega
      unfold TempArena.restore
      have hlen1 : (a.checkpoints.take (id + 1)).length = id + 1 := by
        simp [List.length_take]
        omega
      rw [if_neg (by dsimp only; omega)]
      have hgetD : (a.checkpoints.take (id + 1)).getD id 0 = a.checkpoints.getD id 0 := by
        simp [List.getD_eq_getElem?_getD, List.getElem?_take, Nat.lt_succ_self]
      dsimp only
      rw [hgetD, if_neg (by omega)]
      have htake : (a.checkpoints.take (id + 1)).take (id + 1) = a.checkpoints.take (id + 1) :=
        List.take_of_length_le (by omega)
      rw [htake]

/-- Witness for C10: restoring twice to checkpoint 1 of a concrete arena
yields the same state both times. -/
theorem restore_idempotent_witness :
    TempArena.restore ⟨32, INITIAL_ARENA_SIZE, [0, 32], 96⟩ 1 =
      .ok ⟨32, INITIAL_ARENA_SIZE, [0, 32], 96⟩ :=
  restore_idempotent ⟨100, INITIAL_ARENA_SIZE, [0, 32], 96⟩
    ⟨32, INITIAL_ARENA_SIZE, [0, 32], 96⟩ 1 (by rfl)

/-! ## Persistent-storage theorems -/

theorem PersistentStorage.store_next_id (s : PersistentStorage) (t : PersistentTensor) :
    (s.store t).2.next_id = s.next_id + 1 ∧ (s.store t).1 = s.next_id :=
  ⟨rfl, rfl⟩

theorem PersistentStorage.runOps_ids {ops : List StorageOp} :
    ∀ {s : PersistentStorage},
      (∀ id ∈ (s.runOps ops).2, s.next_id ≤ id) ∧
        List.Pairwise (· < ·) (s.runOps ops).2 := by
  induction ops with
  | nil => intro s; exact ⟨by simp [PersistentStorage.runOps], by simp [PersistentStorage.runOps]⟩
  | cons op rest ih =>
    intro s
    cases op with
    | store t =>
      have hrec := ih (s := (s.store t).2)
      have hnext : (s.store t).2.next_id = s.next_id + 1 := rfl
      constructor
      · intro id hid
        simp only [PersistentStorage.runOps] at hid
        rcases List.mem_cons.mp hid with rfl | hmem
        · exact Nat.le_refl _
        · have hh : s.next_id + 1 ≤ id := hrec.1 id hmem
          omega
      · simp only [PersistentStorage.runOps]
        refine List.pairwise_cons.mpr ⟨?_, hrec.2⟩
        intro id hmem
        have hh : s.next_id + 1 ≤ id := hrec.1 id hmem
        have hfst : (s.store t).1 = s.next_id := rfl
        omega
    | remove id =>
      have hrec := ih (s := (s.remove id).2)
      exact ⟨fun i hi => hrec.1 i hi, hrec.2⟩
    | gc held =>
      have hrec := ih (s := (s.gc held).2)
      exact ⟨fun i hi => hrec.1 i hi, hrec.2⟩

/-- Counterexample to C8: persistent ids are drawn from a per-instance
counter, not a process-global atomic one — two distinct fresh
`PersistentStorage` instances both return id 1 from their first `store`,
so the same id is assigned twice within one process. -/
theorem persistent_id_reused_across_instances :
    (PersistentStorage.new.store ⟨[], 4⟩).1 = 1 ∧
      (PersistentStorage.new.store ⟨[], 8⟩).1 = 1 :=
  ⟨rfl, rfl⟩

/-- C8 (amended): within a single `PersistentStorage` instance, the ids
returned by `store` are strictly increasing — hence never assigned twice —
across any sequence of `store` / `remove` / `gc` operations; `remove` and
`gc` never touch the counter. -/
theorem persistent_ids_unique_per_instance (ops : List StorageOp) (s : PersistentStorage) :
    List.Pairwise (· < ·) (s.runOps ops).2 ∧ ((s.runOps ops).2).Nodup :=
  ⟨PersistentStorage.runOps_ids.2,
   (PersistentStorage.runOps_ids.2).imp fun hlt => Nat.ne_of_lt hlt⟩

/-! ## Pattern-cache theorems -/

theorem mapLookup_mapInsert_self {β : Type} (m : List (Nat × β)) (k : Nat) (v : β) :
    mapLookup (mapInsert m k v) k = some v := by
  induction m with
  | nil => simp [mapInsert, mapLookup]
  | cons e rest ih =>
    by_cases hk : e.1 = k
    · simp [mapInsert, mapLookup, hk]
    · simp [mapInsert, mapLookup, hk, ih]

theorem mapLookup_mapInsert_ne {β : Type} (m : List (Nat × β)) (k j : Nat) (v : β)
    (h : k ≠ j) : mapLookup (mapInsert m k v) j = mapLookup m j := by
  induction m with
  | nil => simp [mapInsert, mapLookup, h]
  | cons e rest ih =>
    by_cases hk : e.1 = k
    · simp [mapInsert, mapLookup, hk, h]
    · by_cases hj : e.1 = j
      · simp [mapInsert, mapLookup, hk, hj, Ne.symm h]
      · simp [mapInsert, mapLookup, hk, hj, ih]

theorem hitsOf_bumpAccess_le (c : PatternCache) (i j : Nat) :
    c.hitsOf j ≤ (c.bumpAccess i).hitsOf j := by
  unfold PatternCache.hitsOf PatternCache.bumpAccess
  by_cases hij : i = j
  · subst hij
    rw [mapLookup_mapInsert_self]
    simp
  · rw [mapLookup_mapInsert_ne _ _ _ _ hij]

theorem hitsOf_applyQuery_le (c : PatternCache) (op : CacheQueryOp) (j : Nat) :
    c.hitsOf j ≤ (c.applyQuery op).hitsOf j := by
  cases op with
  | get pattern_id =>
    unfold PatternCache.applyQuery PatternCache.get_pattern
    dsimp only
    cases hm : mapLookup c.patterns pattern_id with
    | none => simp only [hm]; exact Nat.le_refl _
    | some p => simp only [hm]; exact hitsOf_bumpAccess_le c pattern_id j
  | find signature =>
    unfold PatternCache.applyQuery PatternCache.find_matching_pattern
    dsimp only
    cases hm : c.patterns.find? (fun e =>
        match e.2.operations.head? with
        | some first_op => PatternSignature.from_operation_desc first_op = signature
        | none => false) with
    | none => simp only [hm]; exact Nat.le_refl _
    | some e => simp only [hm]; exact hitsOf_bumpAccess_le c e.1 j
  | update pattern_id execution_time =>
    unfold PatternCache.applyQuery PatternCache.update_pattern_stats
    dsimp only
    cases hm : mapLookup c.patterns pattern_id with
    | none => simp only [hm]; exact Nat.le_refl _
    | some p => simp only [hm]; exact Nat.le_refl _

/-- C2 (amended): across every sequence of `get_pattern`,
`find_matching_pattern` and `update_pattern_stats` calls, the hit counter
of every pattern id is monotone non-decreasing.  (`store_pattern` is
excluded: it unconditionally resets the stored id's counter to 0, and its
evictions delete other ids' counters.) -/
theorem hit_counters_monotone_queries (ops : List CacheQueryOp) :
    ∀ (c : PatternCache) (j : Nat), c.hitsOf j ≤ (c.applyQueries ops).hitsOf j := by
  induction ops with
  | nil => intro c j; exact Nat.le_refl _
  | cons op rest ih =>
    intro c j
    exact (hitsOf_applyQuery_le c op j).trans (ih (c.applyQuery op) j)

/-- A concrete single-operation pattern (matching the source's unit-test
pattern shapes) used to exhibit the hit-counter reset. -/
def c2pattern : OperationPattern :=
  { pattern_id := 1
    operations := [{ operation := .Add
                     input_shapes := [[10, 20], [10, 20]]
                     input_dtypes := [.Float32, .Float32]
                     output_shape := [10, 20]
                     output_dtype := .Float32 }]
    allocations := [{ size_bytes := 800, alignment := 16, is_output := true }]
    total_memory_needed := 800
    estimated_speedup := 3 / 2 }

/-- The empty cache and the three states of the refuting sequence
`store_pattern; get_pattern; store_pattern`. -/
def c2cache0 : PatternCache := PatternCache.new 10 100

def c2cache1 : PatternCache := (c2cache0.store_pattern c2pattern).toOption.getD c2cache0

def c2cache2 : PatternCache := (c2cache1.get_pattern 1).2

def c2cache3 : PatternCache := (c2cache2.store_pattern c2pattern).toOption.getD c2cache0

/-- Counterexample to C2: in the sequence `store_pattern(p); get_pattern(1);
store_pattern(p)` (all successful), the hit counter of id 1 goes 0 → 1 → 0:
re-storing a record with an id already present lowers that id's hit
counter, so it is not monotone non-decreasing over sequences including
`store_pattern`. -/
theorem store_pattern_lowers_hit_counter :
    (c2cache0.store_pattern c2pattern).isOk = true ∧
      (c2cache2.store_pattern c2pattern).isOk = true ∧
      c2cache2.hitsOf 1 = 1 ∧ c2cache3.hitsOf 1 = 0 ∧
      c2cache3.hitsOf 1 < c2cache2.hitsOf 1 := by
  refine ⟨rfl, rfl, rfl, rfl, ?_⟩
  have h2 : c2cache2.hitsOf 1 = 1 := rfl
  have h3 : c2cache3.hitsOf 1 = 0 := rfl
  omega

/-! ## Unary-kernel theorems -/

/-- C1 (code bug in the f64 `Log` arm): for every choice of the external
math primitives, the f32 `Log` kernel maps input 0 to `-inf` and a
negative input to NaN as the claim states, but the f64 `Log` kernel maps
input 0 to NaN — not `-inf` — because its guard sends every non-positive
input (zero included) to `f64::NAN`. -/
theorem log_zero_f64_yields_nan : ∀ (F : FloatFns),
    execute_unary_f64 F .Log [Fp.fin 0] = .ok [Fp.nan] ∧
      execute_unary_f64 F .Log [Fp.negZero] = .ok [Fp.nan] ∧
      execute_unary_f32 F .Log [Fp.fin 0, Fp.negZero, Fp.fin (-1)] =
        .ok [Fp.inf true, Fp.inf true, Fp.nan] ∧
      Fp.nan ≠ Fp.inf true :=
  fun _ => ⟨rfl, rfl, rfl, by decide⟩

/-! ## Division theorems -/

/-- Counterexample to C5: dividing 1.0 by -0.0 through the f64 `Div` fast
path yields `+inf`, but the IEEE-754 quotient `1.0 / -0.0` is `-inf`: the
safe-divide helper picks the sign from the dividend alone and ignores the
negative zero's sign. -/
theorem div_by_negzero_not_ieee :
    execute_binary_f64_fast .Div [Fp.fin 1] [Fp.negZero] = .ok [Fp.inf false] ∧
      Fp.div (Fp.fin 1) Fp.negZero = Fp.inf true ∧
      Fp.inf false ≠ Fp.inf true :=
  ⟨rfl, rfl, by decide⟩

theorem getD_zipWith {α : Type} (f : α → α → α) (a b : List α) (i : Nat) (d : α)
    (hi : i < a.length) (hj : i < b.length) :
    (List.zipWith f a b).getD i d = f (a.getD i d) (b.getD i d) := by
  rw [List.getD_eq_getElem?_getD, List.getElem?_zipWith]
  simp [List.getD_eq_getElem?_getD, List.getElem?_eq_getElem, hi, hj]

/-- C5 (amended): on a zero divisor of either sign, the f64 `Div` fast
path (and the `safe_div_f32` helper, whose body is identical) produces
`+inf` when the dividend is positive, `-inf` when it is negative, and NaN
when the dividend is zero or NaN — the sign of the quotient is chosen from
the dividend alone, which matches IEEE-754 except that a negative-zero
divisor's sign is ignored. -/
theorem div_kernel_zero_divisor (xs ys : List Fp) (i : Nat)
    (hx : i < xs.length) (hy : i < ys.length)
    (hz : (ys.getD i Fp.nan).eqZero = true) :
    execute_binary_f64_fast .Div xs ys = .ok (List.zipWith safe_div_f64 xs ys) ∧
      (List.zipWith safe_div_f64 xs ys).getD i Fp.nan =
        (if (xs.getD i Fp.nan).gtZero then Fp.inf false
         else if (xs.getD i Fp.nan).ltZero then Fp.inf true
         else Fp.nan) ∧
      safe_div_f32 (xs.getD i Fp.nan) (ys.getD i Fp.nan) =
        (List.zipWith safe_div_f64 xs ys).getD i Fp.nan := by
  have hget := getD_zipWith safe_div_f64 xs ys i Fp.nan hx hy
  refine ⟨rfl, ?_, ?_⟩
  · rw [hget]
    unfold safe_div_f64
    rw [if_pos hz]
  · rw [hget]
    rfl

/-- Witness for C5 (amended): dividend -3.0 over divisor -0.0 at index 1
yields `-inf`. -/
theorem div_kernel_zero_divisor_witness :
    execute_binary_f64_fast .Div [Fp.fin 2, Fp.fin (-3)] [Fp.negZero, Fp.fin 0] =
        .ok (List.zipWith safe_div_f64 [Fp.fin 2, Fp.fin (-3)] [Fp.negZero, Fp.fin 0]) ∧
      (List.zipWith safe_div_f64 [Fp.fin 2, Fp.fin (-3)] [Fp.negZero, Fp.fin 0]).getD 1 Fp.nan =
        (if (Fp.fin (-3) : Fp).gtZero then Fp.inf false
         else if (Fp.fin (-3) : Fp).ltZero then Fp.inf true
         else Fp.nan) ∧
      safe_div_f32 (Fp.fin (-3)) (Fp.fin 0) =
        (List.zipWith safe_div_f64 [Fp.fin 2, Fp.fin (-3)] [Fp.negZero, Fp.fin 0]).getD 1 Fp.nan :=
  div_kernel_zero_divisor [Fp.fin 2, Fp.fin (-3)] [Fp.negZero, Fp.fin 0] 1
    (by decide) (by decide) (by decide)

/-- Counterexample to C6: the i32 `Div` kernel is not total — on dividend
`i32::MIN` with divisor -1 the Rust `/` operator overflows and panics
(modelled by the `none` outcome), instead of returning a quotient. -/
theorem i32_div_min_neg_one_traps :
    execute_binary_i32_fast .Div [i32_min] [-1] = .ok none ∧
      (optList (List.zipWith div_elem_i32 [i32_min] [-1])).isNone = true :=
  ⟨rfl, rfl⟩

theorem zipWith_eq_map_zip {α β γ : Type} (f : α → β → γ) (a : List α) (b : List β) :
    List.zipWith f a b = (a.zip b).map (fun p => f p.1 p.2) := by
  induction a generalizing b with
  | nil => simp
  | cons x rest ih =>
    cases b with
    | nil => simp
    | cons y rest2 => simp [ih]

theorem optList_map {α β : Type} (l : List α) (f : α → Option β) (g : α → β)
    (h : ∀ x ∈ l, f x = some (g x)) : optList (l.map f) = some (l.map g) := by
  induction l with
  | nil => rfl
  | cons x rest ih =>
    simp only [List.map_cons]
    rw [show f x = some (g x) from h x (by simp)]
    unfold optList
    rw [ih (fun y hy => h y (by simp [hy]))]
    rfl

/-- C6 (amended): whenever no element pair is exactly
`(i32::MIN, -1)`, the i32 `Div` kernel is total: each output element is
the type extremum on a zero divisor (`i32::MAX` for a positive dividend,
`i32::MIN` otherwise) and the truncated quotient for a nonzero divisor;
at the excluded pair the kernel panics instead. -/
theorem i32_div_total_except_min_neg_one (a b : List Int)
    (h : ∀ p ∈ a.zip b, ¬(p.1 = i32_min ∧ p.2 = -1)) :
    execute_binary_i32_fast .Div a b =
      .ok (some ((a.zip b).map (fun p =>
        if p.2 = 0 then (if 0 < p.1 then i32_max else i32_min) else p.1.tdiv p.2))) := by
  unfold execute_binary_i32_fast
  dsimp only
  rw [zipWith_eq_map_zip]
  rw [optList_map (a.zip b) _ _ (fun p hp => ?_)]
  by_cases hz : p.2 = 0
  · simp [div_elem_i32, hz]
  · simp [div_elem_i32, rust_div_i32, hz, h p hp]

/-- Witness for C6 (amended): `[7, -9, 5] / [2, 0, -1]` avoids the trap
pair and yields `[3, i32::MIN, -5]`. -/
theorem i32_div_total_witness :
    execute_binary_i32_fast .Div [7, -9, 5] [2, 0, -1] =
      .ok (some (([(7 : Int), -9, 5].zip [(2 : Int), 0, -1]).map (fun p =>
        if p.2 = 0 then (if 0 < p.1 then i32_max else i32_min) else p.1.tdiv p.2))) :=
  i32_div_total_except_min_neg_one [7, -9, 5] [2, 0, -1] (by decide)

/-! ## Reduction theorems -/

theorem tdiv_range {S : Int} {n : Nat} (h1 : i32_min ≤ S) (h2 : S ≤ i32_max) :
    i32_min ≤ S.tdiv n ∧ S.tdiv n ≤ i32_max := by
  unfold i32_min i32_max at *
  cases n with
  | zero => simp
  | succ m =>
    have hb : (0 : Int) ≤ ((m + 1 : Nat) : Int) := by positivity
    by_cases hS : 0 ≤ S
    · have heq : S.tdiv ((m + 1 : Nat) : Int) = S / ((m + 1 : Nat) : Int) :=
        Int.tdiv_eq_ediv hS hb
      have hub : S / ((m + 1 : Nat) : Int) ≤ S := Int.ediv_le_self _ hS
      have hnn : 0 ≤ S / ((m + 1 : Nat) : Int) := Int.ediv_nonneg hS hb
      omega
    · have heq : (-S).tdiv ((m + 1 : Nat) : Int) = (-S) / ((m + 1 : Nat) : Int) :=
        Int.tdiv_eq_ediv (by omega) hb
      have hneg : (-S).tdiv ((m + 1 : Nat) : Int) = -(S.tdiv ((m + 1 : Nat) : Int)) :=
        Int.neg_tdiv S ((m + 1 : Nat) : Int)
      have hub : (-S) / ((m + 1 : Nat) : Int) ≤ -S := Int.ediv_le_self _ (by omega)
      have hnn : 0 ≤ (-S) / ((m + 1 : Nat) : Int) := Int.ediv_nonneg (by omega) hb
      omega

theorem clamp_i32_of_range {x : Int} (h1 : i32_min ≤ x) (h2 : x ≤ i32_max) :
    clamp_i32 x = x := by
  unfold clamp_i32
  omega

theorem axisAccum_mean_eq_sum : axisAccum .Mean = axisAccum .Sum := rfl

/-- C7 (amended): Mean ≡ Sum / reduced-size holds exactly for the f32
paths — the scalar full reduction and the axis reduction both accumulate
a Mean exactly as a Sum and then perform one elementwise division by the
reduced size — and for the i32 kernel (which ignores the axes and always
fully reduces) whenever the input is non-empty and the widened i64 sum
lies within the i32 range; when the sum clamps, the i32 Mean can exceed
`Sum / size`, and on an empty input the i32 Mean arm's i64 division by
zero panics (the `.ok none` outcome) while Sum returns 0. -/
theorem mean_is_sum_div_reduced_size :
    (∀ (input : List Fp),
      execute_full_reduction_f32 .Mean input =
        Except.map (fun s => s.div (.fin input.length)) (execute_full_reduction_f32 .Sum input)) ∧
    (∀ (input : List Fp) (input_shape input_strides axes : List Nat),
      execute_axis_reduction_f32 .Mean input input_shape input_strides axes =
        Except.map (fun out => out.map (fun v =>
            v.div (.fin ((axes.map (fun axis => input_shape.getD axis 0)).prod : Nat))))
          (execute_axis_reduction_f32 .Sum input input_shape input_strides axes)) ∧
    (∀ (input : List Int) (sh st : List Nat) (ax : Option (List Nat)),
      0 < input.length →
      i32_min ≤ input.foldl (· + ·) 0 → input.foldl (· + ·) 0 ≤ i32_max →
      execute_reduction_i32 .Mean input sh st ax =
        Except.map (fun s => s.map (fun v => v.tdiv input.length))
          (execute_reduction_i32 .Sum input sh st ax)) ∧
    (∀ (sh st : List Nat) (ax : Option (List Nat)),
      execute_reduction_i32 .Mean [] sh st ax = .ok none ∧
        execute_reduction_i32 .Sum [] sh st ax = .ok (some 0)) := by
  refine ⟨fun input => rfl, ?_, ?_, fun sh st ax => ⟨rfl, rfl⟩⟩
  · intro input input_shape input_strides axes
    unfold execute_axis_reduction_f32
    dsimp only
    cases hax : axes.any (fun axis => decide (axis ≥ input_shape.length)) with
    | true => rfl
    | false => rw [axisAccum_mean_eq_sum]; rfl
  · intro input sh st ax hne hlo hhi
    have hlen : ((input.length : Int)) ≠ 0 := by omega
    have hpair : ¬((input.foldl (· + ·) 0) = i64_min ∧ ((input.length : Int)) = -1) := by
      intro hc
      have h2 := hc.2
      omega
    have ht := tdiv_range (n := input.length) hlo hhi
    unfold execute_reduction_i32 rust_div_i64
    dsimp only [Except.map]
    rw [if_neg hlen, if_neg hpair, clamp_i32_of_range hlo hhi]
    simp only [Option.map]
    rw [clamp_i32_of_range ht.1 ht.2]

/-- Counterexample to C7: on the i32 path with input
`[i32::MAX, i32::MAX]`, Sum clamps to `i32::MAX` and Mean also clamps to
`i32::MAX`, but `Sum / 2 = 1073741823 ≠ i32::MAX`: clamping breaks
Mean ≡ Sum / reduced_size. -/
theorem i32_mean_not_sum_div_when_clamped :
    execute_reduction_i32 .Mean [i32_max, i32_max] [2] [1] none = .ok (some i32_max) ∧
      execute_reduction_i32 .Sum [i32_max, i32_max] [2] [1] none = .ok (some i32_max) ∧
      i32_max.tdiv 2 = 1073741823 ∧ (i32_max ≠ 1073741823) := by
  refine ⟨rfl, rfl, rfl, by decide⟩

/-- Witness for C7 (amended): `[1, 2, 3]` is non-empty and sums to 6
within i32 range, so the i32 Mean equals the i32 Sum divided by the
element count. -/
theorem mean_is_sum_div_witness :
    execute_reduction_i32 .Mean [1, 2, 3] [3] [1] none =
      Except.map (fun s => s.map (fun v => v.tdiv ([(1 : Int), 2, 3].length)))
        (execute_reduction_i32 .Sum [1, 2, 3] [3] [1] none) :=
  mean_is_sum_div_reduced_size.2.2.1 [1, 2, 3] [3] [1] none (by decide) (by decide) (by decide)

/-! ## Slice theorems -/

theorem exceptMap_ok {α β ε : Type} (l : List α) (f : α → Except ε β) (g : α → β)
    (h : ∀ x ∈ l, f x = .ok (g x)) : exceptMap f l = .ok (l.map g) := by
  induction l with
  | nil => rfl
  | cons x rest ih =>
    unfold exceptMap
    rw [show f x = .ok (g x) from h x (by simp)]
    rw [ih (fun y hy => h y (by simp [hy]))]
    rfl

/-- Counterexample to C9: a 2-D slice of a 3x3 input with `col_start = 1`
and output shape `[2, 3]` overruns the column extent (`1 + 3 > 3`), yet
the kernel returns `Ok` — its only check is the flat index against the
buffer length, so the read wraps into the next row and yields elements
2..7 instead of an error. -/
theorem slice_col_overrun_succeeds :
    slice_with_offsets_f32
        [Fp.fin 1, Fp.fin 2, Fp.fin 3, Fp.fin 4, Fp.fin 5, Fp.fin 6, Fp.fin 7, Fp.fin 8,
          Fp.fin 9]
        [3, 3] [3, 1] [2, 3] 0 1 =
      .ok [Fp.fin 2, Fp.fin 3, Fp.fin 4, Fp.fin 5, Fp.fin 6, Fp.fin 7] ∧
    1 + 3 > 3 :=
  ⟨rfl, by decide⟩

/-- C9 (amended): for a 2-D slice of a canonically-strided `r x c` input,
whenever `row_start + or ≤ r` and `col_start + oc ≤ c` the operation
succeeds and output position `(i, j)` (flat `i*oc + j`) receives
`input[row_start + i][col_start + j]`; an out-of-range selection is
reported only when some offset index flattens outside the input buffer —
a column overrun whose flat indices stay inside the buffer succeeds with
row-wrapped values instead of an error. -/
theorem slice_in_bounds_succeeds (input : List Fp) (r c or oc row_start col_start : Nat)
    (hin : input.length = r * c)
    (hrow : row_start + or ≤ r) (hcol : col_start + oc ≤ c) :
    slice_with_offsets_f32 input [r, c] [c, 1] [or, oc] row_start col_start =
      .ok ((List.range (or * oc)).map (fun k =>
        input.getD ((k / oc + row_start) * c + (k % oc + col_start)) Fp.nan)) := by
  unfold slice_with_offsets_f32
  dsimp only
  have hprod : ([or, oc] : List Nat).prod = or * oc := by simp
  rw [hprod]
  refine exceptMap_ok _ _ _ (fun k hk => ?_)
  have hk' : k < or * oc := List.mem_range.mp hk
  have hoc : 0 < oc := by
    rcases Nat.eq_zero_or_pos oc with h0 | h0
    · subst h0; omega
    · exact h0
  have hk2 : k < oc * or := by rw [Nat.mul_comm]; exact hk'
  have hdiv : k / oc < or := Nat.div_lt_of_lt_mul hk2
  have hmod : k % oc < oc := Nat.mod_lt _ hoc
  have hidx : flatToIndices k [or, oc] = [k / oc, k % oc] := by
    simp [flatToIndices]
  rw [hidx]
  have hmap : sliceInputIndices [k / oc, k % oc] ([or, oc] : List Nat).length row_start
      col_start = [k / oc + row_start, k % oc + col_start] := rfl
  rw [hmap]
  have hflat : computeFlatIndex [k / oc + row_start, k % oc + col_start] [c, 1] =
      (k / oc + row_start) * c + (k % oc + col_start) := by
    unfold computeFlatIndex
    simp
  rw [hflat]
  have hbound : (k / oc + row_start) * c + (k % oc + col_start) < r * c := by
    have h1 : k / oc + row_start + 1 ≤ r := by omega
    have h2 : (k / oc + row_start + 1) * c ≤ r * c := Nat.mul_le_mul_right c h1
    have h3 : (k / oc + row_start + 1) * c = (k / oc + row_start) * c + c := by ring
    omega
  rw [if_pos ⟨by omega, by omega⟩]

/-- Witness for C9 (amended): slicing the 3x3 matrix 1..9 at
`(row_start, col_start) = (1, 1)` with output shape `[2, 2]` succeeds and
returns `[5, 6, 8, 9]`. -/
theorem slice_in_bounds_succeeds_witness :
    slice_with_offsets_f32
        [Fp.fin 1, Fp.fin 2, Fp.fin 3, Fp.fin 4, Fp.fin 5, Fp.fin 6, Fp.fin 7, Fp.fin 8,
          Fp.fin 9]
        [3, 3] [3, 1] [2, 2] 1 1 =
      .ok ((List.range (2 * 2)).map (fun k =>
        ([Fp.fin 1, Fp.fin 2, Fp.fin 3, Fp.fin 4, Fp.fin 5, Fp.fin 6, Fp.fin 7, Fp.fin 8,
          Fp.fin 9]).getD ((k / 2 + 1) * 3 + (k % 2 + 1)) Fp.nan)) :=
  slice_in_bounds_succeeds
    [Fp.fin 1, Fp.fin 2, Fp.fin 3, Fp.fin 4, Fp.fin 5, Fp.fin 6, Fp.fin 7, Fp.fin 8, Fp.fin 9]
    3 3 2 2 1 1 (by decide) (by decide) (by decide)
